import Mathlib

/-!
Verification development for the InfringementReportBackend visual-match
pipeline.  The JavaScript sources are embedded shallowly:

* `Batch` models the batched processor (`src/unnamed/part_000`):
  `processSearch`, `performBingSearch`, `performGoogleSearch` with its
  targetUrl deduplication, `processImage` with its try/catch/finally
  cleanup, and `updateSearchStatus` partial-field writes against the
  `SearchMetadata` record.
* `AsyncProc` models the asynchronous processor entry point of
  `src/unifiedHandler.js` (the `original_id`/`imageUrl` variant):
  `processImageUrl` probe normalization, Bing search, the sequential
  face-comparison loop with its 20/40/`round(40 + processed/total*60)`
  progress writes, `updateProgress` and `updateFailedStatus`.
* `Sync` models the synchronous handler of `src/unifiedHandler.js`
  (the `base64Image` variant) with its module-global `searchResults`
  list and the `MAX_PARALLEL_PROCESSING` truncation.

Network calls, AWS clients and the durable store are represented by
explicit outcome oracles: every external effect an execution can observe
is a parameter, and the model returns the trace of store/S3 operations
the code would issue together with its JavaScript return value.
-/

/-- Model of JavaScript `Math.round` applied to the exact rational
`num / den`, that is `floor (num / den + 1 / 2)`, computed on naturals as
`(2 * num + den) / (2 * den)`.  The source only rounds ratios of small
non-negative integers (progress percentages), where the double-precision
computation agrees with the exact rational one. -/
def jsRound (num den : Nat) : Nat := (2 * num + den) / (2 * den)

/-- Candidate produced by a search provider.  Bing candidates
(`performBingSearch`) carry `source := "bing"` and no search term;
Google candidates carry `source := "google"` and the query term that
produced them.  The generated `resultId` (a fresh uuid) and `timestamp`
fields carry no information and are omitted. -/
structure Candidate where
  source : String
  hostPageUrl : String
  targetUrl : String
  searchTerm : String
  deriving DecidableEq, Repr

/-- Item of a Bing Visual Search response (`action.data.value[i]`). -/
structure BingItem where
  hostPageUrl : String
  contentUrl : String
  deriving DecidableEq, Repr

/-- Action of a Bing Visual Search response tag; `value` is
`action.data?.value`, absent fields modeled as `none`. -/
structure BingAction where
  value : Option (List BingItem)
  deriving DecidableEq, Repr

/-- Tag of a Bing Visual Search response; `actions` is `tag.actions?`. -/
structure BingTag where
  actions : Option (List BingAction)
  deriving DecidableEq, Repr

/-- Body of a Bing Visual Search response; `tags` is
`searchResponse.data.tags`, possibly absent. -/
structure BingResponse where
  tags : Option (List BingTag)
  deriving DecidableEq, Repr

/-- Match record persisted / aggregated for one matching candidate:
the spread of the candidate plus the first face match similarity
(`{...result, resultId: uuidv4(), similarity, timestamp}`).  Similarity
scores are represented as naturals; the code never computes with them,
it only copies the first `FaceMatches` entry. -/
structure MatchRec where
  source : String
  hostPageUrl : String
  targetUrl : String
  searchTerm : String
  similarity : Nat
  deriving DecidableEq, Repr

/-- S3 operation issued by a per-candidate unit of work, with the
outcome (`ok`) the S3 client reported. -/
inductive S3Op
  | put (key : String) (ok : Bool)
  | delete (key : String) (ok : Bool)
  deriving DecidableEq, Repr

/-- Key of the transient artifact for one unit of work:
`temp-results/(processId).jpg`. -/
def tempKey (processId : String) : String := "temp-results/" ++ processId ++ ".jpg"

namespace Batch

/-- Constant `CONCURRENT_PROCESSING = 50` of `src/unnamed/part_000`. -/
def CONCURRENT_PROCESSING : Nat := 50

/-- Flattening of a Bing Visual Search response into candidates,
`src/unnamed/part_000` lines 145-157: `tags.flatMap(tag =>
tag.actions?.flatMap(action => action.data?.value?.map(...) || []) || [])`
with an empty list when `tags` is absent.  The HTTP call itself is an
oracle: this is the pure mapping applied to the response body. -/
def performBingSearch (resp : BingResponse) : List Candidate :=
  match resp.tags with
  | none => []
  | some tags =>
      tags.flatMap fun tag =>
        match tag.actions with
        | none => []
        | some actions =>
            actions.flatMap fun action =>
              match action.value with
              | none => []
              | some items =>
                  items.map fun item =>
                    { source := "bing", hostPageUrl := item.hostPageUrl,
                      targetUrl := item.contentUrl, searchTerm := "" }

/-- Item of a Google custom-search response (`response.data.items[i]`). -/
structure GoogleItem where
  contextLink : String
  link : String
  thumbnailLink : String
  deriving DecidableEq, Repr

/-- Search-term variants built in `performGoogleSearch`
(`src/unnamed/part_000` lines 162-167). -/
def googleSearchTerms (fullName location employer : String) : List String :=
  [fullName,
   fullName ++ " " ++ location,
   fullName ++ " " ++ employer,
   fullName ++ " " ++ location ++ " " ++ employer]

/-- Result list of one Google query term.  A failing term is caught and
yields `[]` (lines 194-200); a successful term maps each item to a
candidate tagged with the term (lines 183-193). -/
def googleTermResults (term : String) (outcome : Except Unit (List GoogleItem)) :
    List Candidate :=
  match outcome with
  | .error _ => []
  | .ok items =>
      items.map fun item =>
        { source := "google", hostPageUrl := item.contextLink,
          targetUrl := item.link, searchTerm := term }

/-- Merge step of the deduplicator (line 213):
`acc[url].searchTerm = acc[url].searchTerm + ", " + result.searchTerm`. -/
def mergeSearchTerm (a r : Candidate) : Candidate :=
  { a with searchTerm := a.searchTerm ++ ", " ++ r.searchTerm }

/-- One step of the `reduce` on lines 207-216: the accumulator object
keyed by `targetUrl` is modeled as a list in key-insertion order (the
keys are URLs, never array-index-like strings, so JavaScript object
ordering is insertion order).  A fresh `targetUrl` is appended; an
existing entry has the new search term concatenated in place. -/
def insertResult (acc : List Candidate) (r : Candidate) : List Candidate :=
  if acc.any fun a => a.targetUrl == r.targetUrl then
    acc.map fun a => if a.targetUrl == r.targetUrl then mergeSearchTerm a r else a
  else acc ++ [r]

/-- Deduplication by `targetUrl`, `Object.values(flatResults.reduce(...))`
(lines 206-217). -/
def dedupByTargetUrl (l : List Candidate) : List Candidate :=
  l.foldl insertResult []

/-- Google text-query provider (`src/unnamed/part_000` lines 160-226):
one query per term variant, each independently fault tolerant, flattened
and deduplicated by `targetUrl`.  `fetch` is the per-term network
oracle. -/
def performGoogleSearch (fetch : String → Except Unit (List GoogleItem))
    (fullName location employer : String) : List Candidate :=
  dedupByTargetUrl
    (((googleSearchTerms fullName location employer).map fun term =>
        googleTermResults term (fetch term)).flatten)

/-- Modelled from the spec wording of 4.7, for comparison with the code:
the sequence of `targetUrl`s in insertion order of first occurrence,
given the urls already `seen`. -/
def firstOccurrenceUrls (seen : List String) : List Candidate → List String
  | [] => []
  | r :: l =>
      if r.targetUrl ∈ seen then firstOccurrenceUrls seen l
      else r.targetUrl :: firstOccurrenceUrls (seen ++ [r.targetUrl]) l

/-- Outcome of the candidate-image download and Jimp decode in
`processImage` (lines 234-272): the axios GET may throw or deliver empty
data (`fetchError`, caught by the outer catch), `Jimp.read` may fail
(`jimpError`, explicit `return null`), or the image is decoded and
re-encoded successfully. -/
inductive FetchOutcome
  | fetchError
  | jimpError
  | ok
  deriving DecidableEq, Repr

/-- Effect oracle for one `processImage` unit of work
(`src/unnamed/part_000` lines 228-363).  `compare` is the Rekognition
`CompareFaces` call: an error, or the (possibly empty) list of
`FaceMatches` similarity scores.  `dbPutOk` is the `SearchResults` table
put of a found match; `deleteOk` the S3 cleanup delete in `finally`. -/
structure ImageOracle where
  fetch : FetchOutcome
  uploadOk : Bool
  compare : Except Unit (List Nat)
  dbPutOk : Bool
  deleteOk : Bool

/-- Body of `processImage` up to but excluding the `finally` block.
Every failure is contained: a fetch/upload error falls to the outer
catch, a Jimp error returns null, a Rekognition or DynamoDB error is
caught and logged.  The result is the match returned on line 332, or
`none` on every other path; the trace lists the S3 put when it is
reached. -/
def processImageTry (o : ImageOracle) (c : Candidate) (processId : String) :
    Option MatchRec × List S3Op :=
  match o.fetch with
  | .fetchError => (none, [])
  | .jimpError => (none, [])
  | .ok =>
      let putOp := S3Op.put (tempKey processId) o.uploadOk
      if o.uploadOk then
        match o.compare with
        | .error _ => (none, [putOp])
        | .ok [] => (none, [putOp])
        | .ok (s :: _) =>
            if o.dbPutOk then
              (some { source := c.source, hostPageUrl := c.hostPageUrl,
                      targetUrl := c.targetUrl, searchTerm := c.searchTerm,
                      similarity := s }, [putOp])
            else (none, [putOp])
      else (none, [putOp])

/-- Unit of work `processImage` (lines 228-363): the try/catch body
followed by the unconditional `finally` that attempts the S3 delete of
`temp-results/(processId).jpg` and swallows its own failure.  The
function is total: no path escalates an error to the caller. -/
def processImage (o : ImageOracle) (c : Candidate) (processId : String) :
    Option MatchRec × List S3Op :=
  let body := processImageTry o c processId
  (body.1, body.2 ++ [S3Op.delete (tempKey processId) o.deleteOk])

/-- Structurally recursive chunking worker: `fuel` bounds the recursion
depth (one chunk is produced per step). -/
def chunkFuel (W : Nat) : Nat → List α → List (List α)
  | 0, _ => []
  | _, [] => []
  | fuel + 1, x :: xs => ((x :: xs).take W) :: chunkFuel W fuel ((x :: xs).drop W)

/-- Partition into consecutive chunks of size `W`, the shape of the
`for (let i = 0; i < searchResults.length; i += CONCURRENT_PROCESSING)`
loop with `slice(i, i + CONCURRENT_PROCESSING)` (lines 67-68). -/
def chunkList (W : Nat) (l : List α) : List (List α) :=
  chunkFuel W l.length l

/-- Accumulated matches, separated by source as in the `matches`
object of `processSearch` (lines 61-64). -/
structure Matches where
  bing : List MatchRec
  google : List MatchRec
  deriving DecidableEq, Repr

/-- Counter fields passed as the `additional` argument of
`updateSearchStatus` (lines 86-91 and 102-107). -/
structure Counters where
  totalProcessed : Nat
  totalAvailable : Nat
  bingMatches : Nat
  googleMatches : Nat
  deriving DecidableEq, Repr

/-- One `updateSearchStatus` call (lines 364-390): status and progress
are always written; the `results` attribute only when the `results`
argument object is non-empty (`none` models the omitted attribute of the
`'failed'` writes, whose `results` argument defaults to `{}`); `ok`
records whether the DynamoDB update succeeded — `updateSearchStatus`
does not catch, so `ok = false` means the call threw. -/
structure WriteAttempt where
  status : String
  progress : Nat
  results : Option Matches
  counters : Option Counters
  ok : Bool
  deriving DecidableEq, Repr

/-- Write issued by `updateSearchStatus(searchId, 'failed', 0)`
(lines 32, 111): results and counters arguments are omitted, so only
`status` and `progress` are written. -/
def failedWrite (ok : Bool) : WriteAttempt :=
  { status := "failed", progress := 0, results := none, counters := none, ok := ok }

/-- Push one batch result into the aggregate (lines 72-81): null results
are filtered out, the rest are appended to `matches.bing` or
`matches.google` according to `result.source`. -/
def pushMatch (m : Matches) (r : Option MatchRec) : Matches :=
  match r with
  | none => m
  | some mr =>
      if mr.source == "bing" then { m with bing := m.bing ++ [mr] }
      else { m with google := m.google ++ [mr] }

/-- Fold of `pushMatch` over the results of one batch. -/
def pushMatches (m : Matches) (rs : List (Option MatchRec)) : Matches :=
  rs.foldl pushMatch m

/-- Effect oracle for one `processSearch` run.  `bing` and `google` are
the two provider promises (either may reject, which rejects the
`Promise.all`); `image` gives the per-candidate `processImage` oracle,
indexed by the candidate's position in the combined list; `writeOk`
tells whether the k-th `updateSearchStatus` call of the run succeeds. -/
structure RunOracle where
  bing : Except Unit (List Candidate)
  google : Except Unit (List Candidate)
  image : Nat → ImageOracle
  writeOk : Nat → Bool

/-- Result of the batch loop. -/
structure LoopOut where
  writes : List WriteAttempt
  acc : Matches
  processed : Nat
  nextWrite : Nat
  thrown : Bool
  deriving Repr

/-- Results of running `processImage` over one batch of indexed
candidates (`batch.map(result => processImage(result, s3Key))` followed
by `Promise.all`, lines 69-71); the index stands in for the generated
`processId`. -/
def batchOutcomes (o : RunOracle) (batch : List (Nat × Candidate)) :
    List (Option MatchRec) :=
  batch.map fun ic => (processImage (o.image ic.1) ic.2 (toString ic.1)).1

/-- Batch loop of `processSearch` (lines 67-100): for each chunk, await
all units of work, filter nulls into the aggregate, bump `processed`,
and issue the `'processing'` status write with
`progress = Math.round(processed / total * 100)` and the four counters.
`updateSearchStatus` is not wrapped in try/catch, so a failing write
(`writeOk wi = false`) throws out of the loop. -/
def runLoop (o : RunOracle) (total : Nat) :
    List (List (Nat × Candidate)) → Matches → Nat → Nat → LoopOut
  | [], m, p, wi =>
      { writes := [], acc := m, processed := p, nextWrite := wi, thrown := false }
  | b :: bs, m, p, wi =>
      let m2 := pushMatches m (batchOutcomes o b)
      let p2 := p + b.length
      let w : WriteAttempt :=
        { status := "processing", progress := jsRound (100 * p2) total,
          results := some m2,
          counters := some { totalProcessed := p2, totalAvailable := total,
                             bingMatches := m2.bing.length,
                             googleMatches := m2.google.length },
          ok := o.writeOk wi }
      if o.writeOk wi then
        let r := runLoop o total bs m2 p2 (wi + 1)
        { r with writes := w :: r.writes }
      else
        { writes := [w], acc := m2, processed := p2, nextWrite := wi + 1,
          thrown := true }

/-- Result of `processSearch`: the ordered status-write attempts and
whether the promise rejected. -/
structure RunOut where
  writes : List WriteAttempt
  thrown : Bool
  nextWrite : Nat
  deriving Repr

/-- Orchestration of `processSearch` (`src/unnamed/part_000` lines
36-114): run both providers (a rejection of either rejects the
`Promise.all` and lands in the catch), concatenate `bing ++ google`,
run the batch loop over chunks of `CONCURRENT_PROCESSING`, then write
the `'completed'` status with progress 100.  The catch block writes
`'failed'` with progress 0 (results argument omitted) and rethrows. -/
def processSearch (o : RunOracle) : RunOut :=
  match o.bing, o.google with
  | .ok bs, .ok gs =>
      let searchResults := bs ++ gs
      let r := runLoop o searchResults.length
                 (chunkList CONCURRENT_PROCESSING searchResults.enum)
                 { bing := [], google := [] } 0 0
      if r.thrown then
        { writes := r.writes ++ [failedWrite (o.writeOk r.nextWrite)],
          thrown := true, nextWrite := r.nextWrite + 1 }
      else
        let wc : WriteAttempt :=
          { status := "completed", progress := 100, results := some r.acc,
            counters := some { totalProcessed := r.processed,
                               totalAvailable := searchResults.length,
                               bingMatches := r.acc.bing.length,
                               googleMatches := r.acc.google.length },
            ok := o.writeOk r.nextWrite }
        if o.writeOk r.nextWrite then
          { writes := r.writes ++ [wc], thrown := false,
            nextWrite := r.nextWrite + 1 }
        else
          { writes := r.writes ++ [wc, failedWrite (o.writeOk (r.nextWrite + 1))],
            thrown := true, nextWrite := r.nextWrite + 2 }
  | _, _ =>
      { writes := [failedWrite (o.writeOk 0)], thrown := true, nextWrite := 1 }

/-- Entry point `unifiedHandler` of `src/unnamed/part_000` (lines
24-34): it awaits `processSearch` and, if that rejected, writes
`'failed'` with progress 0 once more.  The value is the full ordered
list of status-write attempts of the invocation. -/
def unifiedHandler (o : RunOracle) : List WriteAttempt :=
  let r := processSearch o
  if r.thrown then r.writes ++ [failedWrite (o.writeOk r.nextWrite)] else r.writes

/-- State of the `SearchMetadata` record for one `searchId`.  `results`
and the counters are `none` while never written (the record created by
`handleInitiateSearch` carries `results: []` and no counters; `none`
stands for that initial state). -/
structure StatusRecord where
  status : String
  progress : Nat
  results : Option Matches
  counters : Option Counters
  deriving DecidableEq, Repr

/-- Application of one `updateSearchStatus` attempt to the durable
record: a failed call changes nothing; a successful one replaces
`status` and `progress` and only overwrites `results`/counters when the
update expression contains them (partial-field update). -/
def applyWrite (rec : StatusRecord) (w : WriteAttempt) : StatusRecord :=
  if w.ok then
    { status := w.status, progress := w.progress,
      results := match w.results with | some m => some m | none => rec.results,
      counters := match w.counters with | some c => some c | none => rec.counters }
  else rec

/-- Record created by `handleInitiateSearch` (`src/unnamed/part_001`
lines 63-77): `status: 'processing', progress: 0, results: []`. -/
def initialRecord : StatusRecord :=
  { status := "processing", progress := 0, results := none, counters := none }

/-- Durable record after an entire `unifiedHandler` invocation. -/
def finalRecord (o : RunOracle) : StatusRecord :=
  (unifiedHandler o).foldl applyWrite initialRecord

/-- Progress values of the `'processing'`-status write attempts of a
trace, in order. -/
def processingValues (ws : List WriteAttempt) : List Nat :=
  ws.filterMap fun w => if w.status == "processing" then some w.progress else none

/-- Cumulative element counts after each chunk, starting from `p`
already processed: the successive values of the `processed` variable. -/
def cumLengths : List (List α) → Nat → List Nat
  | [], _ => []
  | b :: bs, p => (p + b.length) :: cumLengths bs (p + b.length)

end Batch

namespace AsyncProc

/-- Outcome of one iteration of the result loop in the asynchronous
`unifiedHandler` of `src/unifiedHandler.js` (lines 549-590):
`processImageUrl` may return null (`fetchFail`, the `continue` branch
that skips the candidate without counting it as processed), the
Rekognition call may throw (`compareError`, caught and logged), or it
returns with or without a face match. -/
inductive CandOutcome
  | fetchFail
  | compareError
  | matched (similarity : Nat)
  | noMatch
  deriving DecidableEq, Repr

/-- Match entry pushed for a matching candidate (lines 567-571):
`{url: result.hostPageUrl, malicious: false, false_positive_eligible: false}`. -/
structure AsyncMatch where
  url : String
  malicious : Bool
  false_positive_eligible : Bool
  deriving DecidableEq, Repr

/-- DynamoDB operation against the `ImageSearchResults` record:
`progress` is an `updateProgress` call (which catches and logs its own
failure), `putRecord` a full-record put — the `'completed'` put of lines
593-602 or the `'failed'` put of `updateFailedStatus`.  `ok` is the
store outcome. -/
inductive DynOp
  | progress (value : Nat) (ok : Bool)
  | putRecord (status : String) (progressVal : Nat) (matchList : List AsyncMatch) (ok : Bool)
  deriving DecidableEq, Repr

/-- Effect oracle for one asynchronous-processor invocation.  `probe`
is the `processImageUrl(imageUrl)` normalization of the source image
(`none` = null); `bing` the `performBingSearch` promise; `candidate` the
outcome for the k-th search result; `progressWriteOk` whether a given
`updateProgress` call reaches the store; `finalPutOk` the `'completed'`
put; `failedPutOk` the put inside `updateFailedStatus`. -/
structure ProcOracle where
  probe : Option Unit
  bing : Except Unit (List Candidate)
  candidate : Nat → CandOutcome
  progressWriteOk : Nat → Bool
  finalPutOk : Bool
  failedPutOk : Bool

/-- Write issued by `updateFailedStatus` (lines 1048-1063): a put of
`{status: 'failed', progress: 0, matches: []}`; its own failure is
caught and logged. -/
def updateFailedStatus (ok : Bool) : DynOp := .putRecord "failed" 0 [] ok

/-- Match entry constructed for a matching candidate. -/
def mkMatch (c : Candidate) : AsyncMatch :=
  { url := c.hostPageUrl, malicious := false, false_positive_eligible := false }

/-- Sequential result loop (lines 549-590).  A `fetchFail` candidate is
skipped by `continue` before `processed++`, so it emits no progress
write; every other outcome increments `processed` and issues
`updateProgress(original_id, Math.round(40 + processed / total * 60))`.
The progress-write oracle is keyed by `idx + 2` (after the two earlier
calls); the loop never inspects it, because `updateProgress` catches its
own errors. -/
def searchLoop (o : ProcOracle) (total : Nat) :
    List Candidate → Nat → Nat → List DynOp × List AsyncMatch
  | [], _, _ => ([], [])
  | c :: cs, processed, idx =>
      match o.candidate idx with
      | .fetchFail => searchLoop o total cs processed (idx + 1)
      | .compareError =>
          let p2 := processed + 1
          let w := DynOp.progress (jsRound (40 * total + 60 * p2) total)
                     (o.progressWriteOk (idx + 2))
          let r := searchLoop o total cs p2 (idx + 1)
          (w :: r.1, r.2)
      | .noMatch =>
          let p2 := processed + 1
          let w := DynOp.progress (jsRound (40 * total + 60 * p2) total)
                     (o.progressWriteOk (idx + 2))
          let r := searchLoop o total cs p2 (idx + 1)
          (w :: r.1, r.2)
      | .matched _ =>
          let p2 := processed + 1
          let w := DynOp.progress (jsRound (40 * total + 60 * p2) total)
                     (o.progressWriteOk (idx + 2))
          let r := searchLoop o total cs p2 (idx + 1)
          (w :: r.1, mkMatch c :: r.2)

/-- Asynchronous processor `unifiedHandler` (`src/unifiedHandler.js`
lines 505-622).  Returns the ordered DynamoDB trace and the `img_data`
list of the Lambda's return value.  Paths: probe normalization failure
and Bing failure call `updateFailedStatus` and return `[]`; otherwise
progress 20 and 40 are written, the loop runs, and the `'completed'`
record is put — if that put throws, the catch-all runs
`updateFailedStatus` and returns `[]`. -/
def unifiedHandler (o : ProcOracle) : List DynOp × List AsyncMatch :=
  match o.probe with
  | none => ([updateFailedStatus o.failedPutOk], [])
  | some _ =>
      let w20 := DynOp.progress 20 (o.progressWriteOk 0)
      match o.bing with
      | .error _ => ([w20, updateFailedStatus o.failedPutOk], [])
      | .ok searchResults =>
          let w40 := DynOp.progress 40 (o.progressWriteOk 1)
          let r := searchLoop o searchResults.length searchResults 0 0
          let put := DynOp.putRecord "completed" 100 r.2 o.finalPutOk
          if o.finalPutOk then
            (w20 :: w40 :: r.1 ++ [put], r.2)
          else
            (w20 :: w40 :: r.1 ++ [put, updateFailedStatus o.failedPutOk], [])

/-- Progress values of the `updateProgress` calls of a trace, in order.
These are the only writes that touch `progress` while the record's
status stays `'processing'`; the terminal puts replace the status. -/
def progressValues (ops : List DynOp) : List Nat :=
  ops.filterMap fun op =>
    match op with
    | .progress v _ => some v
    | .putRecord _ _ _ _ => none

/-- Normalization of a trace that forgets the store outcome of the
`updateProgress` calls (used to state that those outcomes cannot
influence anything else). -/
def stripProgressOk : DynOp → DynOp
  | .progress v _ => .progress v true
  | op => op

end AsyncProc

namespace Sync

/-- Constant `MAX_SEARCH_RESULTS = 10` of `src/unifiedHandler.js`
line 21; declared but never used by the handler. -/
def MAX_SEARCH_RESULTS : Nat := 10

/-- Constant `MAX_PARALLEL_PROCESSING = 5` of `src/unifiedHandler.js`
line 23. -/
def MAX_PARALLEL_PROCESSING : Nat := 5

/-- Tag of the Bing response as consumed by the synchronous handler
(lines 153-164): `tag.actions` is accessed without the optional-chaining
operator, so it is modeled as present. -/
structure SyncTag where
  actions : List BingAction
  deriving DecidableEq, Repr

/-- Body of the Bing response consumed by the synchronous handler. -/
structure SyncResponse where
  tags : Option (List SyncTag)
  deriving DecidableEq, Repr

/-- Flattening of the Bing response by the synchronous handler (lines
154-164): `tags.flatMap(tag => tag.actions.flatMap(action =>
action.data?.value?.map(...) || []))`.  The mapped objects carry no
`source`/`searchTerm` fields; they are embedded as `""`. -/
def flattenResults (tags : List SyncTag) : List Candidate :=
  tags.flatMap fun tag =>
    tag.actions.flatMap fun action =>
      match action.value with
      | none => []
      | some items =>
          items.map fun item =>
            { source := "", hostPageUrl := item.hostPageUrl,
              targetUrl := item.contentUrl, searchTerm := "" }

/-- Update of the module-global `let searchResults = []` variable of
`src/unifiedHandler.js` line 25 by one invocation (lines 153-167): the
global is reassigned (flattened and `slice(0, MAX_PARALLEL_PROCESSING)`)
only when `bingResponse.data.tags && bingResponse.data.tags.length > 0`;
otherwise the previous invocation's value is kept. -/
def nextSearchResults (searchResults : List Candidate) (resp : SyncResponse) :
    List Candidate :=
  match resp.tags with
  | some tags =>
      if 0 < tags.length then (flattenResults tags).take MAX_PARALLEL_PROCESSING
      else searchResults
  | none => searchResults

/-- Effect oracle for one iteration of the synchronous handler's result
loop (lines 286-469).  `prep` covers the steps before the S3 upload
(download with 200-check, content-type check, `Jimp.read`, JPEG
re-encode, 5MB-with-recompression check): `false` means one of them
threw, landing in the per-candidate catch.  `compare` is the
Rekognition call; `dbOk` the DynamoDB put of a found match (its failure
is caught and processing continues, the pushed match is kept);
`deleteOk` the cleanup delete of the `finally` block. -/
structure CandOracle where
  prep : Bool
  uploadOk : Bool
  compare : Except Unit (List Nat)
  dbOk : Bool
  deleteOk : Bool

/-- Body of one loop iteration up to but excluding the `finally` block.
The match is pushed before the DynamoDB put, so it is returned even when
`dbOk = false`. -/
def processOneTry (o : CandOracle) (c : Candidate) (processId : String) :
    Option MatchRec × List S3Op :=
  if o.prep then
    let putOp := S3Op.put (tempKey processId) o.uploadOk
    if o.uploadOk then
      match o.compare with
      | .error _ => (none, [putOp])
      | .ok [] => (none, [putOp])
      | .ok (s :: _) =>
          (some { source := "", hostPageUrl := c.hostPageUrl,
                  targetUrl := c.targetUrl, searchTerm := "",
                  similarity := s }, [putOp])
    else (none, [putOp])
  else (none, [])

/-- One iteration of the synchronous handler's result loop: the
try/catch body followed by the `finally` block (lines 450-468) that
always attempts the delete of `temp-results/(processId).jpg` and
swallows its own failure. -/
def processOne (o : CandOracle) (c : Candidate) (processId : String) :
    Option MatchRec × List S3Op :=
  let body := processOneTry o c processId
  (body.1, body.2 ++ [S3Op.delete (tempKey processId) o.deleteOk])

/-- Matches accumulated by the sequential loop over `searchResults`,
in candidate order; the position stands in for the generated
`processId`. -/
def runMatches (oracle : Nat → CandOracle) (searchResults : List Candidate) :
    List MatchRec :=
  searchResults.enum.filterMap fun ic =>
    (processOne (oracle ic.1) ic.2 (toString ic.1)).1

end Sync

/-! Concrete inputs used by the witnesses and counterexamples below. -/

/-- Bing candidate used in concrete scenarios. -/
def candBing : Candidate :=
  { source := "bing", hostPageUrl := "hostA", targetUrl := "urlA", searchTerm := "" }

/-- Fully successful per-candidate oracle: the image downloads, decodes,
uploads, and Rekognition reports one face match with similarity 95. -/
def imgOracleOk : Batch.ImageOracle :=
  { fetch := .ok, uploadOk := true, compare := .ok [95], dbPutOk := true,
    deleteOk := true }

/-- Match record `processImage` produces for `candBing` under
`imgOracleOk`. -/
def matchBing : MatchRec :=
  { source := "bing", hostPageUrl := "hostA", targetUrl := "urlA",
    searchTerm := "", similarity := 95 }

/-- Batched-processor run with one matching Bing candidate and a fully
healthy store. -/
def oracleAllOk : Batch.RunOracle :=
  { bing := .ok [candBing], google := .ok [],
    image := fun _ => imgOracleOk, writeOk := fun _ => true }

/-- Same run as `oracleAllOk` except that the first status write (the
write after batch 1) fails. -/
def oracleFailWrite0 : Batch.RunOracle :=
  { oracleAllOk with writeOk := fun i => !(i == 0) }

/-- Same run as `oracleAllOk` except that the second status write (the
`'completed'` terminal write) fails. -/
def oracleFailWrite1 : Batch.RunOracle :=
  { oracleAllOk with writeOk := fun i => !(i == 1) }

/-- Batched-processor run whose providers both succeed with zero
candidates. -/
def oracleEmpty : Batch.RunOracle :=
  { oracleAllOk with bing := .ok [], google := .ok [] }

/-- Asynchronous-processor run with one candidate that is compared and
does not match, with a healthy store. -/
def procOracleOk : AsyncProc.ProcOracle :=
  { probe := some (), bing := .ok [candBing],
    candidate := fun _ => .noMatch, progressWriteOk := fun _ => true,
    finalPutOk := true, failedPutOk := true }

/-- Asynchronous-processor run whose Bing search succeeds with zero
candidates. -/
def procOracleEmpty : AsyncProc.ProcOracle :=
  { procOracleOk with bing := .ok [] }

/-- Two Bing items sharing the same `contentUrl`. -/
def dupItems : List BingItem :=
  [{ hostPageUrl := "h1", contentUrl := "dup" },
   { hostPageUrl := "h2", contentUrl := "dup" }]

/-- Bing response containing a single action whose value lists two items
with the same `contentUrl`. -/
def respDup : BingResponse :=
  { tags := some [{ actions := some [{ value := some dupItems }] }] }

/-- Google fetch oracle where every term's request fails (each term is
caught independently and contributes zero candidates). -/
def googleFetchFail : String → Except Unit (List Batch.GoogleItem) :=
  fun _ => .error ()

/-- Bing item of the sync-handler scenario. -/
def itemA : BingItem := { hostPageUrl := "pageA", contentUrl := "imgA" }

/-- Sync-handler Bing response with one candidate. -/
def respA : Sync.SyncResponse :=
  { tags := some [{ actions := [{ value := some [itemA] }] }] }

/-- Sync-handler Bing response whose `tags` array is present but empty
(`tags.length > 0` is false, so the global `searchResults` is kept). -/
def respEmptyTags : Sync.SyncResponse := { tags := some [] }

/-- Candidate the sync handler builds from `respA`. -/
def syncCandA : Candidate :=
  { source := "", hostPageUrl := "pageA", targetUrl := "imgA", searchTerm := "" }

/-- Per-candidate sync oracle where everything succeeds and Rekognition
reports similarity 99. -/
def syncOracleMatch : Nat → Sync.CandOracle :=
  fun _ => { prep := true, uploadOk := true, compare := .ok [99], dbOk := true,
             deleteOk := true }

/-- Match the sync handler pushes for `syncCandA` under
`syncOracleMatch`. -/
def syncMatchA : MatchRec :=
  { source := "", hostPageUrl := "pageA", targetUrl := "imgA",
    searchTerm := "", similarity := 99 }

/-- Asynchronous-processor run whose probe normalization returns null. -/
def procOracleNoProbe : AsyncProc.ProcOracle := { procOracleOk with probe := none }

/-- Asynchronous-processor run whose Bing search rejects. -/
def procOracleBingFail : AsyncProc.ProcOracle :=
  { procOracleOk with bing := .error () }

/-- Asynchronous-processor run whose terminal `'completed'` put fails. -/
def procOracleNoFinal : AsyncProc.ProcOracle :=
  { procOracleOk with finalPutOk := false }

/-- Per-candidate oracle identical to `imgOracleOk` except that the
DynamoDB put of the found match fails. -/
def imgOracleNoDb : Batch.ImageOracle := { imgOracleOk with dbPutOk := false }

/-- First Google result used in the deduplication witness. -/
def gR1 : Candidate :=
  { source := "google", hostPageUrl := "p1", targetUrl := "u", searchTerm := "alice" }

/-- Second Google result used in the deduplication witness: same
`targetUrl` as `gR1`, different search term. -/
def gR2 : Candidate :=
  { source := "google", hostPageUrl := "p2", targetUrl := "u",
    searchTerm := "alice bob" }

/-! Helper lemmas and the claim theorems. -/


theorem jsRound_mono (den : Nat) {a b : Nat} (h : a ≤ b) :
    jsRound a den ≤ jsRound b den :=
  Nat.div_le_div_right (by omega)

theorem jsRound_forty (n : Nat) (h : 0 < n) : jsRound (40 * n) n = 40 := by
  unfold jsRound
  exact Nat.div_eq_of_lt_le (by omega) (by omega)

theorem jsRound_zero (n : Nat) : jsRound 0 n = 0 := by
  unfold jsRound
  rcases Nat.eq_zero_or_pos n with h | h
  · simp [h]
  · exact Nat.div_eq_of_lt (by omega)

namespace AsyncProc

theorem progressValues_cons_progress (v : Nat) (b : Bool) (ops : List DynOp) :
    progressValues (.progress v b :: ops) = v :: progressValues ops := by
  simp [progressValues]

theorem searchLoop_chain (o : ProcOracle) (total : Nat) :
    ∀ (cs : List Candidate) (p idx : Nat),
      List.Chain' (· ≤ ·)
        (jsRound (40 * total + 60 * p) total ::
          progressValues (searchLoop o total cs p idx).1) := by
  intro cs
  induction cs with
  | nil => intro p idx; simp [searchLoop, progressValues]
  | cons c cs ih =>
      intro p idx
      rcases h : o.candidate idx with _ | _ | s | _
      · simpa [searchLoop, h] using ih p (idx + 1)
      · simp only [searchLoop, h, progressValues_cons_progress]
        exact List.Chain'.cons (jsRound_mono total (by omega)) (ih (p + 1) (idx + 1))
      · simp only [searchLoop, h, progressValues_cons_progress]
        exact List.Chain'.cons (jsRound_mono total (by omega)) (ih (p + 1) (idx + 1))
      · simp only [searchLoop, h, progressValues_cons_progress]
        exact List.Chain'.cons (jsRound_mono total (by omega)) (ih (p + 1) (idx + 1))

theorem searchLoop_values_total (o : ProcOracle) (total : Nat)
    (hno : ∀ i, o.candidate i ≠ .fetchFail) :
    ∀ (cs : List Candidate) (p idx : Nat),
      progressValues (searchLoop o total cs p idx).1 =
        (List.range cs.length).map
          (fun k => jsRound (40 * total + 60 * (p + k + 1)) total) := by
  intro cs
  induction cs with
  | nil => intro p idx; simp [searchLoop, progressValues]
  | cons c cs ih =>
      intro p idx
      rcases h : o.candidate idx with _ | _ | s | _
      · exact absurd h (hno idx)
      all_goals
        simp only [searchLoop, h, progressValues_cons_progress, List.length_cons,
          List.range_succ_eq_map, List.map_cons, List.map_map, ih (p + 1) (idx + 1)]
      all_goals
        refine congrArg₂ _ (by norm_num) ?_
      all_goals
        refine List.map_congr_left fun k _ => ?_
      all_goals
        simp [Function.comp]
      all_goals
        refine congrArg₂ _ (by omega) rfl

end AsyncProc

namespace Batch

theorem processingValues_processing (w : WriteAttempt) (hw : w.status = "processing")
    (ws : List WriteAttempt) :
    processingValues (w :: ws) = w.progress :: processingValues ws := by
  simp [processingValues, hw]

theorem processingValues_other (w : WriteAttempt) (hw : w.status ≠ "processing")
    (ws : List WriteAttempt) :
    processingValues (w :: ws) = processingValues ws := by
  simp [processingValues, hw]

theorem processingValues_append (xs ys : List WriteAttempt) :
    processingValues (xs ++ ys) = processingValues xs ++ processingValues ys := by
  simp [processingValues]

theorem runLoop_chain (o : RunOracle) (total : Nat) :
    ∀ (bs : List (List (Nat × Candidate))) (m : Matches) (p wi : Nat),
      List.Chain' (· ≤ ·)
        (jsRound (100 * p) total ::
          processingValues (runLoop o total bs m p wi).writes) := by
  intro bs
  induction bs with
  | nil => intro m p wi; simp [runLoop, processingValues]
  | cons b bs ih =>
      intro m p wi
      rcases h : o.writeOk wi with _ | _
      · simp only [runLoop, h, Bool.false_eq_true, if_false]
        rw [processingValues_processing _ rfl]
        exact List.Chain'.cons (jsRound_mono total (by omega))
          (by simp [processingValues])
      · simp only [runLoop, h, if_true]
        rw [processingValues_processing _ rfl]
        exact List.Chain'.cons (jsRound_mono total (by omega))
          (ih _ (p + b.length) (wi + 1))

theorem pushMatches_append (m : Matches) (xs ys : List (Option MatchRec)) :
    pushMatches m (xs ++ ys) = pushMatches (pushMatches m xs) ys :=
  List.foldl_append ..

theorem batchOutcomes_append (o : RunOracle) (b rest : List (Nat × Candidate)) :
    batchOutcomes o (b ++ rest) = batchOutcomes o b ++ batchOutcomes o rest :=
  List.map_append ..

theorem runLoop_allok (o : RunOracle) (total : Nat)
    (hw : ∀ i, o.writeOk i = true) :
    ∀ (bs : List (List (Nat × Candidate))) (m : Matches) (p wi : Nat),
      (runLoop o total bs m p wi).thrown = false ∧
      (runLoop o total bs m p wi).acc = pushMatches m (batchOutcomes o bs.flatten) ∧
      (runLoop o total bs m p wi).writes.map (fun w => (w.status, w.progress)) =
        (cumLengths bs p).map (fun q => ("processing", jsRound (100 * q) total)) := by
  intro bs
  induction bs with
  | nil =>
      intro m p wi
      simp [runLoop, cumLengths, batchOutcomes, pushMatches]
  | cons b bs ih =>
      intro m p wi
      obtain ⟨iht, iha, ihw⟩ := ih (pushMatches m (batchOutcomes o b)) (p + b.length) (wi + 1)
      simp only [runLoop, hw wi, if_true, List.flatten_cons, batchOutcomes_append,
        pushMatches_append, cumLengths]
      refine ⟨iht, iha, ?_⟩
      simp only [List.map_cons, ihw]

end Batch

namespace Batch

theorem chunkFuel_nil (W f : Nat) : chunkFuel (α := α) W f [] = [] := by
  cases f <;> rfl

theorem chunkFuel_join (W : Nat) (hW : 0 < W) :
    ∀ (f : Nat) (l : List α), l.length ≤ f → (chunkFuel W f l).flatten = l := by
  intro f
  induction f with
  | zero =>
      intro l hl
      have : l = [] := List.length_eq_zero.mp (Nat.le_zero.mp hl)
      simp [this, chunkFuel]
  | succ f ih =>
      intro l hl
      match l with
      | [] => simp [chunkFuel]
      | x :: xs =>
          have hdrop : ((x :: xs).drop W).length ≤ f := by
            simp only [List.length_drop, List.length_cons]
            simp only [List.length_cons] at hl
            omega
          simp only [chunkFuel, List.flatten_cons, ih _ hdrop]
          exact List.take_append_drop ..

theorem chunkList_join (W : Nat) (hW : 0 < W) (l : List α) :
    (chunkList W l).flatten = l :=
  chunkFuel_join W hW l.length l le_rfl

theorem chunkFuel_sizes (W : Nat) (hW : 0 < W) :
    ∀ (f : Nat) (l : List α), l.length ≤ f →
      ∀ c ∈ chunkFuel W f l, c ≠ [] ∧ c.length ≤ W := by
  intro f
  induction f with
  | zero =>
      intro l hl c hc
      have : l = [] := List.length_eq_zero.mp (Nat.le_zero.mp hl)
      subst this
      simp [chunkFuel] at hc
  | succ f ih =>
      intro l hl c hc
      match l with
      | [] => simp [chunkFuel] at hc
      | x :: xs =>
          simp only [chunkFuel, List.mem_cons] at hc
          rcases hc with hc | hc
          · subst hc
            constructor
            · simp [List.take_eq_nil_iff, hW.ne']
            · simp [List.length_take]
          · have hdrop : ((x :: xs).drop W).length ≤ f := by
              simp only [List.length_drop, List.length_cons]
              simp only [List.length_cons] at hl
              omega
            exact ih _ hdrop c hc

theorem chunkList_sizes (W : Nat) (hW : 0 < W) (l : List α) :
    ∀ c ∈ chunkList W l, c ≠ [] ∧ c.length ≤ W :=
  chunkFuel_sizes W hW l.length l le_rfl

theorem chunkFuel_dropLast (W : Nat) (hW : 0 < W) :
    ∀ (f : Nat) (l : List α), l.length ≤ f →
      ∀ c ∈ (chunkFuel W f l).dropLast, c.length = W := by
  intro f
  induction f with
  | zero =>
      intro l hl c hc
      have : l = [] := List.length_eq_zero.mp (Nat.le_zero.mp hl)
      subst this
      simp [chunkFuel] at hc
  | succ f ih =>
      intro l hl c hc
      match l with
      | [] => simp [chunkFuel] at hc
      | x :: xs =>
          simp only [chunkFuel] at hc
          rcases hrest : chunkFuel W f ((x :: xs).drop W) with _ | ⟨y, ys⟩
          · rw [hrest] at hc
            simp at hc
          · rw [hrest, List.dropLast_cons₂, List.mem_cons] at hc
            have hdroplen : ((x :: xs).drop W).length ≤ f := by
              simp only [List.length_drop, List.length_cons]
              simp only [List.length_cons] at hl
              omega
            rcases hc with hc | hc
            · subst hc
              have hne : (x :: xs).drop W ≠ [] := by
                intro hnil
                rw [hnil, chunkFuel_nil] at hrest
                exact (List.cons_ne_nil y ys) hrest.symm
              have hlen : W < (x :: xs).length := by
                by_contra hcon
                push_neg at hcon
                exact hne (List.drop_eq_nil_of_le hcon)
              simp only [List.length_take, List.length_cons] at hlen ⊢
              omega
            · have := ih _ hdroplen c
              rw [hrest] at this
              exact this hc

theorem chunkList_dropLast (W : Nat) (hW : 0 < W) (l : List α) :
    ∀ c ∈ (chunkList W l).dropLast, c.length = W :=
  chunkFuel_dropLast W hW l.length l le_rfl

end Batch

namespace Batch

theorem processingValues_failedWrite (b : Bool) (ws : List WriteAttempt) :
    processingValues (failedWrite b :: ws) = processingValues ws := by
  refine processingValues_other _ ?_ ws
  intro h
  simp only [failedWrite] at h
  exact absurd h (by decide)

theorem batch_handler_chain (o : RunOracle) :
    List.Chain' (· ≤ ·) (processingValues (unifiedHandler o)) := by
  rcases hb : o.bing with e | bs
  · simp [unifiedHandler, processSearch, hb, processingValues, failedWrite]
  rcases hg : o.google with e2 | gs
  · simp [unifiedHandler, processSearch, hb, hg, processingValues, failedWrite]
  have hch := runLoop_chain o (bs ++ gs).length
    (chunkList CONCURRENT_PROCESSING (bs ++ gs).enum) { bing := [], google := [] } 0 0
  rw [show (100 * 0 : Nat) = 0 by norm_num, jsRound_zero] at hch
  have htail : List.Chain' (· ≤ ·)
      (processingValues (runLoop o (bs ++ gs).length
        (chunkList CONCURRENT_PROCESSING (bs ++ gs).enum)
        { bing := [], google := [] } 0 0).writes) := hch.tail
  simp only [unifiedHandler, processSearch, hb, hg]
  split_ifs <;>
    simp_all [processingValues_append, processingValues_failedWrite,
      processingValues, failedWrite]

end Batch

namespace AsyncProc

theorem progressValues_append (xs ys : List DynOp) :
    progressValues (xs ++ ys) = progressValues xs ++ progressValues ys := by
  simp [progressValues]

theorem progressValues_putRecord (st : String) (p : Nat) (ml : List AsyncMatch)
    (b : Bool) (ops : List DynOp) :
    progressValues (.putRecord st p ml b :: ops) = progressValues ops := by
  simp [progressValues]

theorem async_handler_chain (o : ProcOracle) :
    List.Chain' (· ≤ ·) (progressValues (unifiedHandler o).1) := by
  rcases hp : o.probe with _ | u
  · simp [unifiedHandler, hp, progressValues, updateFailedStatus]
  rcases hb : o.bing with e | l
  · simp [unifiedHandler, hp, hb, progressValues, updateFailedStatus]
  have hpv : progressValues (unifiedHandler o).1 =
      20 :: 40 :: progressValues (searchLoop o l.length l 0 0).1 := by
    rcases hf : o.finalPutOk with _ | _ <;>
      simp [unifiedHandler, hp, hb, hf, progressValues_cons_progress,
        progressValues_append, progressValues_putRecord, updateFailedStatus,
        progressValues]
  rw [hpv]
  rcases l with _ | ⟨c, cs⟩
  · simp only [searchLoop, progressValues, List.filterMap_nil]
    exact List.Chain'.cons (by omega) (List.chain'_singleton 40)
  · have hch := searchLoop_chain o (c :: cs).length (c :: cs) 0 0
    rw [show 40 * (c :: cs).length + 60 * 0 = 40 * (c :: cs).length by omega,
      jsRound_forty _ (by simp)] at hch
    exact List.Chain'.cons (by omega) hch

end AsyncProc

namespace Batch

theorem processSearch_allok (o : RunOracle) (bs gs : List Candidate)
    (hb : o.bing = .ok bs) (hg : o.google = .ok gs)
    (hw : ∀ i, o.writeOk i = true) :
    (processSearch o).thrown = false ∧
    (processSearch o).writes =
      (runLoop o (bs ++ gs).length
        (chunkList CONCURRENT_PROCESSING (bs ++ gs).enum)
        { bing := [], google := [] } 0 0).writes ++
      [{ status := "completed", progress := 100,
         results := some (pushMatches { bing := [], google := [] }
           (batchOutcomes o (chunkList CONCURRENT_PROCESSING (bs ++ gs).enum).flatten)),
         counters := some
           { totalProcessed :=
               (runLoop o (bs ++ gs).length
                 (chunkList CONCURRENT_PROCESSING (bs ++ gs).enum)
                 { bing := [], google := [] } 0 0).processed,
             totalAvailable := (bs ++ gs).length,
             bingMatches :=
               (pushMatches { bing := [], google := [] }
                 (batchOutcomes o
                   (chunkList CONCURRENT_PROCESSING (bs ++ gs).enum).flatten)).bing.length,
             googleMatches :=
               (pushMatches { bing := [], google := [] }
                 (batchOutcomes o
                   (chunkList CONCURRENT_PROCESSING (bs ++ gs).enum).flatten)).google.length },
         ok := true }] := by
  obtain ⟨ht, ha, hv⟩ := runLoop_allok o (bs ++ gs).length hw
    (chunkList CONCURRENT_PROCESSING (bs ++ gs).enum) { bing := [], google := [] } 0 0
  constructor
  · simp only [processSearch, hb, hg, ht, hw, Bool.false_eq_true, if_false, if_true]
  · simp only [processSearch, hb, hg, ht, hw, Bool.false_eq_true, if_false, if_true, ha]

end Batch

namespace Batch

theorem targetUrl_mergeSearchTerm (a r : Candidate) :
    (mergeSearchTerm a r).targetUrl = a.targetUrl := rfl

theorem anyUrl_iff (acc : List Candidate) (u : String) :
    (acc.any fun a => a.targetUrl == u) = true ↔ u ∈ acc.map Candidate.targetUrl := by
  rw [List.any_eq_true]
  constructor
  · rintro ⟨a, ha, he⟩
    exact List.mem_map.mpr ⟨a, ha, beq_iff_eq.mp he⟩
  · intro h
    obtain ⟨a, ha, he⟩ := List.mem_map.mp h
    exact ⟨a, ha, beq_iff_eq.mpr he⟩

theorem mergeMap_map_urls (acc : List Candidate) (w : String) (r : Candidate) :
    ((acc.map fun a => if a.targetUrl == w then mergeSearchTerm a r else a).map
      Candidate.targetUrl) = acc.map Candidate.targetUrl := by
  rw [List.map_map]
  refine List.map_congr_left fun a _ => ?_
  by_cases h : a.targetUrl = w
  · simp [h, mergeSearchTerm]
  · simp [h]

theorem insertResult_map_urls (acc : List Candidate) (r : Candidate) :
    (insertResult acc r).map Candidate.targetUrl =
      if r.targetUrl ∈ acc.map Candidate.targetUrl then acc.map Candidate.targetUrl
      else acc.map Candidate.targetUrl ++ [r.targetUrl] := by
  by_cases h : r.targetUrl ∈ acc.map Candidate.targetUrl
  · rw [if_pos h, insertResult, if_pos ((anyUrl_iff acc r.targetUrl).mpr h)]
    exact mergeMap_map_urls acc r.targetUrl r
  · rw [if_neg h, insertResult,
      if_neg (by rw [anyUrl_iff acc r.targetUrl]; exact h)]
    simp

theorem foldl_insert_urls :
    ∀ (l acc : List Candidate),
      (l.foldl insertResult acc).map Candidate.targetUrl =
        acc.map Candidate.targetUrl ++
          firstOccurrenceUrls (acc.map Candidate.targetUrl) l := by
  intro l
  induction l with
  | nil => intro acc; simp [firstOccurrenceUrls]
  | cons r l ih =>
      intro acc
      rw [List.foldl_cons, ih (insertResult acc r), insertResult_map_urls]
      by_cases h : r.targetUrl ∈ acc.map Candidate.targetUrl
      · rw [if_pos h, firstOccurrenceUrls, if_pos h]
      · rw [if_neg h, firstOccurrenceUrls, if_neg h, List.append_assoc,
          List.singleton_append]

theorem firstOccurrenceUrls_nodup :
    ∀ (l : List Candidate) (seen : List String), seen.Nodup →
      (seen ++ firstOccurrenceUrls seen l).Nodup := by
  intro l
  induction l with
  | nil => intro seen h; simpa [firstOccurrenceUrls] using h
  | cons r l ih =>
      intro seen h
      by_cases hmem : r.targetUrl ∈ seen
      · rw [firstOccurrenceUrls, if_pos hmem]
        exact ih seen h
      · rw [firstOccurrenceUrls, if_neg hmem, ← List.singleton_append,
          ← List.append_assoc]
        refine ih (seen ++ [r.targetUrl]) ?_
        simp [List.nodup_append, h, hmem]

theorem dedup_urls (l : List Candidate) :
    (dedupByTargetUrl l).map Candidate.targetUrl = firstOccurrenceUrls [] l := by
  rw [dedupByTargetUrl, foldl_insert_urls]
  simp

theorem dedup_urls_nodup (l : List Candidate) :
    ((dedupByTargetUrl l).map Candidate.targetUrl).Nodup := by
  rw [dedup_urls]
  simpa using firstOccurrenceUrls_nodup l [] List.nodup_nil

end Batch

namespace Batch

theorem filter_of_not_memUrl {acc : List Candidate} {u : String}
    (h : u ∉ acc.map Candidate.targetUrl) :
    acc.filter (fun x => x.targetUrl == u) = [] := by
  rw [List.filter_eq_nil_iff]
  intro a ha hpa
  exact h (List.mem_map.mpr ⟨a, ha, beq_iff_eq.mp hpa⟩)

theorem filter_mergeMap_same (acc : List Candidate) (u : String) (r : Candidate) :
    ((acc.map fun a => if a.targetUrl == u then mergeSearchTerm a r else a).filter
        (fun x => x.targetUrl == u)) =
      (acc.filter (fun x => x.targetUrl == u)).map fun a => mergeSearchTerm a r := by
  induction acc with
  | nil => rfl
  | cons a acc ih =>
      by_cases h : a.targetUrl = u
      · simp only [List.map_cons, List.filter_cons, h, beq_self_eq_true, if_true,
          targetUrl_mergeSearchTerm, ih]
      · simp only [List.map_cons, List.filter_cons, beq_eq_false_iff_ne.mpr h,
          Bool.false_eq_true, if_false, ih]

theorem filter_mergeMap_ne (acc : List Candidate) (u w : String) (hne : u ≠ w)
    (r : Candidate) :
    ((acc.map fun a => if a.targetUrl == w then mergeSearchTerm a r else a).filter
        (fun x => x.targetUrl == u)) =
      acc.filter (fun x => x.targetUrl == u) := by
  induction acc with
  | nil => rfl
  | cons a acc ih =>
      by_cases h : a.targetUrl = w
      · have hwu : (w == u) = false := beq_eq_false_iff_ne.mpr (Ne.symm hne)
        simp only [List.map_cons, List.filter_cons, h, beq_self_eq_true, if_true,
          targetUrl_mergeSearchTerm, hwu, Bool.false_eq_true, if_false, ih]
      · simp only [List.map_cons, List.filter_cons, beq_eq_false_iff_ne.mpr h,
          Bool.false_eq_true, if_false, ih]

theorem filter_foldl_mem (u : String) :
    ∀ (l acc : List Candidate) (a : Candidate),
      (acc.map Candidate.targetUrl).Nodup →
      acc.filter (fun x => x.targetUrl == u) = [a] →
      (l.foldl insertResult acc).filter (fun x => x.targetUrl == u) =
        [(l.filter (fun x => x.targetUrl == u)).foldl mergeSearchTerm a] := by
  intro l
  induction l with
  | nil =>
      intro acc a hnd hfa
      simpa using hfa
  | cons r l ih =>
      intro acc a hnd hfa
      have hau : u ∈ acc.map Candidate.targetUrl := by
        have ha : a ∈ acc.filter (fun x => x.targetUrl == u) := by rw [hfa]; simp
        obtain ⟨hmem, hpred⟩ := List.mem_filter.mp ha
        exact List.mem_map.mpr ⟨a, hmem, beq_iff_eq.mp hpred⟩
      by_cases hru : r.targetUrl = u
      · -- the new element collides with u: merge in place
        have hany : (acc.any fun x => x.targetUrl == r.targetUrl) = true :=
          (anyUrl_iff acc r.targetUrl).mpr (hru ▸ hau)
        rw [List.foldl_cons, insertResult, if_pos hany]
        have hnd2 : (((acc.map fun x =>
            if x.targetUrl == r.targetUrl then mergeSearchTerm x r else x)).map
              Candidate.targetUrl).Nodup := by
          rw [mergeMap_map_urls]; exact hnd
        have hf2 : ((acc.map fun x =>
            if x.targetUrl == r.targetUrl then mergeSearchTerm x r else x)).filter
              (fun x => x.targetUrl == u) = [mergeSearchTerm a r] := by
          rw [hru, filter_mergeMap_same, hfa]
          rfl
        rw [ih _ (mergeSearchTerm a r) hnd2 hf2]
        simp only [List.filter_cons, beq_iff_eq.mpr hru, if_true, List.foldl_cons]
      · -- different url: the filtered view of the accumulator is unchanged
        rw [List.foldl_cons, List.filter_cons_of_neg (by simp [hru]), insertResult]
        by_cases hmem : (acc.any fun x => x.targetUrl == r.targetUrl) = true
        · rw [if_pos hmem]
          refine ih _ a ?_ ?_
          · rw [mergeMap_map_urls]; exact hnd
          · rw [filter_mergeMap_ne _ _ _ (fun he => hru he.symm)]
            exact hfa
        · rw [if_neg hmem]
          refine ih _ a ?_ ?_
          · rw [List.map_append]
            have hnotin : r.targetUrl ∉ acc.map Candidate.targetUrl := by
              intro hmm
              exact hmem ((anyUrl_iff acc r.targetUrl).mpr hmm)
            simp [List.nodup_append, hnd, hnotin]
          · rw [List.filter_append, hfa, List.filter_cons_of_neg (by simp [hru])]
            simp

theorem filter_foldl_not_mem (u : String) :
    ∀ (l acc : List Candidate),
      (acc.map Candidate.targetUrl).Nodup →
      u ∉ acc.map Candidate.targetUrl →
      (l.foldl insertResult acc).filter (fun x => x.targetUrl == u) =
        (match l.filter (fun x => x.targetUrl == u) with
         | [] => []
         | r :: rs => [rs.foldl mergeSearchTerm r]) := by
  intro l
  induction l with
  | nil =>
      intro acc hnd hmem
      simp [filter_of_not_memUrl hmem]
  | cons r l ih =>
      intro acc hnd hmem
      by_cases hru : r.targetUrl = u
      · -- first occurrence of u is appended
        have hany : (acc.any fun x => x.targetUrl == r.targetUrl) = false := by
          rcases hh : (acc.any fun x => x.targetUrl == r.targetUrl) with _ | _
          · rfl
          · exact absurd ((anyUrl_iff acc r.targetUrl).mp hh) (hru ▸ hmem)
        rw [List.foldl_cons, insertResult, hany, if_neg Bool.false_ne_true]
        have hnd2 : (((acc ++ [r]).map Candidate.targetUrl)).Nodup := by
          rw [List.map_append]
          have hnotin : r.targetUrl ∉ acc.map Candidate.targetUrl := by
            intro hmm
            rw [(anyUrl_iff acc r.targetUrl).mpr hmm] at hany
            exact Bool.true_eq_false.mp hany
          simp [List.nodup_append, hnd, hnotin]
        have hf2 : (acc ++ [r]).filter (fun x => x.targetUrl == u) = [r] := by
          rw [List.filter_append, filter_of_not_memUrl hmem]
          simp only [List.nil_append, List.filter_cons, beq_iff_eq.mpr hru, if_true,
            List.filter_nil]
        rw [filter_foldl_mem u l (acc ++ [r]) r hnd2 hf2]
        simp only [List.filter_cons, beq_iff_eq.mpr hru, if_true]
      · -- r does not collide with u; u stays absent from the accumulator
        rw [List.foldl_cons, List.filter_cons_of_neg (by simp [hru]), insertResult]
        by_cases hmm : (acc.any fun x => x.targetUrl == r.targetUrl) = true
        · rw [if_pos hmm]
          refine ih _ ?_ ?_
          · rw [mergeMap_map_urls]; exact hnd
          · rw [mergeMap_map_urls]; exact hmem
        · rw [if_neg hmm]
          refine ih _ ?_ ?_
          · rw [List.map_append]
            have hnotin : r.targetUrl ∉ acc.map Candidate.targetUrl := by
              intro hmm2
              exact hmm ((anyUrl_iff acc r.targetUrl).mpr hmm2)
            simp [List.nodup_append, hnd, hnotin]
          · rw [List.map_append]
            simp only [List.mem_append]
            rintro (h | h)
            · exact hmem h
            · simp at h
              exact hru h.symm

end Batch

namespace Batch

theorem processImage_deleteOk_irrelevant (o : ImageOracle) (b : Bool)
    (c : Candidate) (pid : String) :
    (processImage { o with deleteOk := b } c pid).1 = (processImage o c pid).1 := rfl

theorem processImage_deletes (o : ImageOracle) (c : Candidate) (pid : String) :
    (processImage o c pid).2.getLast? = some (S3Op.delete (tempKey pid) o.deleteOk) :=
  List.getLast?_concat _

theorem processImage_dbFail (o : ImageOracle) (c : Candidate) (pid : String)
    (h : o.dbPutOk = false) : (processImage o c pid).1 = none := by
  obtain ⟨f, u, cp, db, d⟩ := o
  simp only at h
  subst h
  cases f <;> cases u <;> rcases cp with _ | ls
  all_goals try simp [processImage, processImageTry]
  all_goals rcases ls with _ | ⟨s, ss⟩ <;> simp [processImage, processImageTry]

theorem runLoop_writes_processing (o : RunOracle) (total : Nat) :
    ∀ (bs : List (List (Nat × Candidate))) (m : Matches) (p wi : Nat),
      ∀ w ∈ (runLoop o total bs m p wi).writes, w.status = "processing" := by
  intro bs
  induction bs with
  | nil => intro m p wi w hw; simp [runLoop] at hw
  | cons b bs ih =>
      intro m p wi w hw
      rcases h : o.writeOk wi with _ | _
      · simp only [runLoop, h, Bool.false_eq_true, if_false, List.mem_singleton] at hw
        subst hw; rfl
      · simp only [runLoop, h, if_true, List.mem_cons] at hw
        rcases hw with hw | hw
        · subst hw; rfl
        · exact ih _ (p + b.length) (wi + 1) w hw

theorem processSearch_failed_bare (o : RunOracle) :
    ∀ w ∈ (processSearch o).writes, w.status = "failed" →
      w.progress = 0 ∧ w.results = none := by
  intro w hw hst
  rcases hb : o.bing with e | bs
  · simp only [processSearch, hb, List.mem_singleton] at hw
    subst hw; exact ⟨rfl, rfl⟩
  rcases hg : o.google with e2 | gs
  · simp only [processSearch, hb, hg, List.mem_singleton] at hw
    subst hw; exact ⟨rfl, rfl⟩
  simp only [processSearch, hb, hg] at hw
  split_ifs at hw with h1 h2
  · rw [List.mem_append] at hw
    rcases hw with hw | hw
    · exact absurd hst (by rw [runLoop_writes_processing o _ _ _ _ _ w hw]; decide)
    · rw [List.mem_singleton] at hw
      subst hw; exact ⟨rfl, rfl⟩
  · rw [List.mem_append] at hw
    rcases hw with hw | hw
    · exact absurd hst (by rw [runLoop_writes_processing o _ _ _ _ _ w hw]; decide)
    · rw [List.mem_singleton] at hw
      subst hw
      have hcf : ("completed" : String) = "failed" := hst
      exact absurd hcf (by decide)
  · rw [List.mem_append] at hw
    rcases hw with hw | hw
    · exact absurd hst (by rw [runLoop_writes_processing o _ _ _ _ _ w hw]; decide)
    · rw [List.mem_cons] at hw
      rcases hw with hw | hw
      · subst hw
        have hcf : ("completed" : String) = "failed" := hst
        exact absurd hcf (by decide)
      · rw [List.mem_singleton] at hw
        subst hw; exact ⟨rfl, rfl⟩

theorem handler_failed_writes_bare (o : RunOracle) :
    ∀ w ∈ unifiedHandler o, w.status = "failed" →
      w.progress = 0 ∧ w.results = none := by
  intro w hw hst
  simp only [unifiedHandler] at hw
  split_ifs at hw
  · rw [List.mem_append] at hw
    rcases hw with hw | hw
    · exact processSearch_failed_bare o w hw hst
    · rw [List.mem_singleton] at hw
      subst hw; exact ⟨rfl, rfl⟩
  · exact processSearch_failed_bare o w hw hst

end Batch

namespace AsyncProc

theorem searchLoop_progressWriteOk_irrelevant (o : ProcOracle) (f : Nat → Bool)
    (total : Nat) :
    ∀ (cs : List Candidate) (p idx : Nat),
      ((searchLoop { o with progressWriteOk := f } total cs p idx).1).map
          stripProgressOk =
        ((searchLoop o total cs p idx).1).map stripProgressOk ∧
      (searchLoop { o with progressWriteOk := f } total cs p idx).2 =
        (searchLoop o total cs p idx).2 := by
  intro cs
  induction cs with
  | nil => intro p idx; exact ⟨rfl, rfl⟩
  | cons c cs ih =>
      intro p idx
      obtain ⟨ih1, ih2⟩ := ih (p + 1) (idx + 1)
      obtain ⟨ih1f, ih2f⟩ := ih p (idx + 1)
      rcases h : o.candidate idx with _ | _ | s | _ <;>
        simp [searchLoop, h, stripProgressOk, ih1, ih2, ih1f, ih2f]

theorem handler_progressWriteOk_irrelevant (o : ProcOracle) (f : Nat → Bool) :
    (unifiedHandler { o with progressWriteOk := f }).2 = (unifiedHandler o).2 ∧
    ((unifiedHandler { o with progressWriteOk := f }).1).map stripProgressOk =
      ((unifiedHandler o).1).map stripProgressOk := by
  obtain ⟨pr, bi, cand, pw, fp, fpo⟩ := o
  cases pr with
  | none => simp [unifiedHandler]
  | some u =>
      cases bi with
      | error e => simp [unifiedHandler, stripProgressOk]
      | ok l =>
          cases fp with
          | false =>
              obtain ⟨h1, h2⟩ := searchLoop_progressWriteOk_irrelevant
                ⟨some u, .ok l, cand, pw, false, fpo⟩ f l.length l 0 0
              simp [unifiedHandler, stripProgressOk, h1, h2]
          | true =>
              obtain ⟨h1, h2⟩ := searchLoop_progressWriteOk_irrelevant
                ⟨some u, .ok l, cand, pw, true, fpo⟩ f l.length l 0 0
              simp [unifiedHandler, stripProgressOk, h1, h2]

end AsyncProc

namespace Batch

theorem processSearch_write0_fails (o : RunOracle) (bs gs : List Candidate)
    (hb : o.bing = .ok bs) (hg : o.google = .ok gs)
    (h0 : o.writeOk 0 = false) :
    (processSearch o).thrown = true := by
  simp only [processSearch, hb, hg]
  rcases hc : chunkList CONCURRENT_PROCESSING (bs ++ gs).enum with _ | ⟨b, rest⟩
  · simp [runLoop, h0]
  · simp [runLoop, h0]

end Batch

namespace Sync

theorem nextSearchResults_le (g : List Candidate) (resp : SyncResponse)
    (hg : g.length ≤ MAX_PARALLEL_PROCESSING) :
    (nextSearchResults g resp).length ≤ MAX_PARALLEL_PROCESSING := by
  rcases resp with ⟨tg⟩
  cases tg with
  | none => exact hg
  | some tags =>
      simp only [nextSearchResults]
      split_ifs
      · simp [List.length_take]
      · exact hg

theorem foldl_nextSearchResults_le (resps : List SyncResponse) :
    ∀ (g : List Candidate), g.length ≤ MAX_PARALLEL_PROCESSING →
      (resps.foldl nextSearchResults g).length ≤ MAX_PARALLEL_PROCESSING := by
  induction resps with
  | nil => intro g hg; exact hg
  | cons r resps ih =>
      intro g hg
      exact ih _ (nextSearchResults_le g r hg)

theorem runMatches_le (oracle : Nat → CandOracle) (sr : List Candidate) :
    (runMatches oracle sr).length ≤ sr.length := by
  calc (runMatches oracle sr).length ≤ sr.enum.length :=
        List.length_filterMap_le _ _
    _ = sr.length := List.enum_length

theorem processOne_deleteOk_irrelevant (o : CandOracle) (b : Bool)
    (c : Candidate) (pid : String) :
    (processOne { o with deleteOk := b } c pid).1 = (processOne o c pid).1 := rfl

theorem processOne_deletes (o : CandOracle) (c : Candidate) (pid : String) :
    (processOne o c pid).2.getLast? = some (S3Op.delete (tempKey pid) o.deleteOk) :=
  List.getLast?_concat _

end Sync

namespace AsyncProc

theorem async_trace_values (o : ProcOracle) (l : List Candidate)
    (hp : o.probe = some ()) (hb : o.bing = .ok l) :
    progressValues (unifiedHandler o).1 =
      20 :: 40 :: progressValues (searchLoop o l.length l 0 0).1 := by
  rcases hf : o.finalPutOk with _ | _ <;>
    simp [unifiedHandler, hp, hb, hf, progressValues_cons_progress,
      progressValues_append, progressValues_putRecord, updateFailedStatus,
      progressValues]

end AsyncProc

namespace Batch

theorem processingValues_of_map_eq :
    ∀ (ws : List WriteAttempt) (qs : List Nat) (f : Nat → Nat),
      ws.map (fun w => (w.status, w.progress)) =
        qs.map (fun q => (("processing" : String), f q)) →
      processingValues ws = qs.map f := by
  intro ws
  induction ws with
  | nil =>
      intro qs f h
      cases qs with
      | nil => simp [processingValues]
      | cons q qs => simp at h
  | cons w ws ih =>
      intro qs f h
      cases qs with
      | nil => simp at h
      | cons q qs =>
          simp only [List.map_cons, List.cons.injEq, Prod.mk.injEq] at h
          obtain ⟨⟨hs, hpr⟩, ht⟩ := h
          rw [processingValues_processing w hs, ih qs f ht, hpr, List.map_cons]

theorem handler_values_allok (o : RunOracle) (bs gs : List Candidate)
    (hb : o.bing = .ok bs) (hg : o.google = .ok gs)
    (hw : ∀ i, o.writeOk i = true) :
    processingValues (unifiedHandler o) =
      processingValues (runLoop o (bs ++ gs).length
        (chunkList CONCURRENT_PROCESSING (bs ++ gs).enum)
        { bing := [], google := [] } 0 0).writes := by
  obtain ⟨ht, -, -⟩ := runLoop_allok o (bs ++ gs).length hw
    (chunkList CONCURRENT_PROCESSING (bs ++ gs).enum) { bing := [], google := [] } 0 0
  simp only [unifiedHandler, processSearch, hb, hg, ht, Bool.false_eq_true,
    if_false, hw _, if_true]
  rw [processingValues_append]
  rw [processingValues_other _
    (fun h => absurd (show ("completed" : String) = "processing" from h) (by decide)) []]
  simp [processingValues]

end Batch

/-- Claim C1: while a request's status is `processing`, the progress
values the processor writes never decrease between successive updates.
In the asynchronous processor the trace of `updateProgress` values is 20
after probe normalization, 40 after the Bing search, then
`round(40 + processed/total*60)` after each processed candidate; in the
batched processor the `'processing'` writes carry
`round(processed/total*100)` per batch.  Both sequences are chains under
`≤` for every oracle, and on runs where every candidate is processed
(resp. every status write succeeds) they have exactly the stated shape. -/
theorem claim_C1_progress_monotone :
    (∀ o : AsyncProc.ProcOracle,
        List.Chain' (· ≤ ·)
          (AsyncProc.progressValues (AsyncProc.unifiedHandler o).1)) ∧
    (∀ o : Batch.RunOracle,
        List.Chain' (· ≤ ·)
          (Batch.processingValues (Batch.unifiedHandler o))) ∧
    (∀ (o : AsyncProc.ProcOracle) (l : List Candidate),
        o.probe = some () → o.bing = .ok l →
        (∀ i, o.candidate i ≠ .fetchFail) →
        AsyncProc.progressValues (AsyncProc.unifiedHandler o).1 =
          20 :: 40 :: (List.range l.length).map
            (fun k => jsRound (40 * l.length + 60 * (k + 1)) l.length)) ∧
    (∀ (o : Batch.RunOracle) (bs gs : List Candidate),
        o.bing = .ok bs → o.google = .ok gs → (∀ i, o.writeOk i = true) →
        Batch.processingValues (Batch.unifiedHandler o) =
          (Batch.cumLengths
            (Batch.chunkList Batch.CONCURRENT_PROCESSING (bs ++ gs).enum) 0).map
            (fun q => jsRound (100 * q) (bs ++ gs).length)) := by
  refine ⟨AsyncProc.async_handler_chain, Batch.batch_handler_chain, ?_, ?_⟩
  · intro o l hp hb hno
    rw [AsyncProc.async_trace_values o l hp hb,
      AsyncProc.searchLoop_values_total o l.length hno l 0 0]
    refine congrArg₂ _ rfl (congrArg₂ _ rfl ?_)
    refine List.map_congr_left fun k _ => ?_
    refine congrArg₂ _ ?_ rfl
    omega
  · intro o bs gs hb hg hw
    obtain ⟨-, -, hv⟩ := Batch.runLoop_allok o (bs ++ gs).length hw
      (Batch.chunkList Batch.CONCURRENT_PROCESSING (bs ++ gs).enum)
      { bing := [], google := [] } 0 0
    rw [Batch.handler_values_allok o bs gs hb hg hw]
    exact Batch.processingValues_of_map_eq _ _ _ hv

/-- Witness for C1 at concrete runs: one candidate in each variant, all
writes succeeding. -/
theorem claim_C1_witness :
    (procOracleOk.probe = some () ∧ procOracleOk.bing = .ok [candBing] ∧
      (∀ i, procOracleOk.candidate i ≠ .fetchFail) ∧
      oracleAllOk.bing = .ok [candBing] ∧ oracleAllOk.google = .ok [] ∧
      (∀ i, oracleAllOk.writeOk i = true)) ∧
    AsyncProc.progressValues (AsyncProc.unifiedHandler procOracleOk).1 =
      20 :: 40 :: (List.range ([candBing] : List Candidate).length).map
        (fun k => jsRound (40 * ([candBing] : List Candidate).length + 60 * (k + 1))
          ([candBing] : List Candidate).length) ∧
    Batch.processingValues (Batch.unifiedHandler oracleAllOk) =
      (Batch.cumLengths
        (Batch.chunkList Batch.CONCURRENT_PROCESSING
          (([candBing] : List Candidate) ++ []).enum) 0).map
        (fun q => jsRound (100 * q) (([candBing] : List Candidate) ++ []).length) :=
  ⟨⟨rfl, rfl, fun _ h => AsyncProc.CandOutcome.noConfusion h, rfl, rfl,
      fun _ => rfl⟩,
    claim_C1_progress_monotone.2.2.1 procOracleOk [candBing] rfl rfl
      (fun _ h => AsyncProc.CandOutcome.noConfusion h),
    claim_C1_progress_monotone.2.2.2 oracleAllOk [candBing] [] rfl rfl
      (fun _ => rfl)⟩

theorem getLast?_cons_cons_append_pair (a b : α) (l : List α) (x y : α) :
    (a :: b :: l ++ [x, y]).getLast? = some y := by
  rw [show a :: b :: l ++ [x, y] = (a :: b :: l ++ [x]) ++ [y] by simp]
  exact List.getLast?_concat _

/-- Claim C2 counterexample: in the batched processor, when the terminal
`'completed'` write throws after a batch already persisted one match,
the run ends in an unhandled rejection and the record is written
`'failed'` with progress 0 — but the `results` field is left as the
previously persisted non-empty match set, not an empty list. -/
theorem claim_C2_counterexample :
    (Batch.processSearch oracleFailWrite1).thrown = true ∧
    (Batch.finalRecord oracleFailWrite1).status = "failed" ∧
    (Batch.finalRecord oracleFailWrite1).progress = 0 ∧
    (Batch.finalRecord oracleFailWrite1).results =
      some { bing := [matchBing], google := [] } ∧
    some ({ bing := [matchBing], google := [] } : Batch.Matches) ≠
      some ({ bing := [], google := [] } : Batch.Matches) := by
  refine ⟨by decide, by decide, by decide, by decide, by decide⟩

/-- Claim C2 amended: whenever processing ends with an unhandled error,
a `'failed'` write with progress 0 is issued; in the asynchronous
variant `updateFailedStatus` replaces the whole record, so the match
list becomes empty, while in the batched variant the `'failed'` update
writes only status and progress (the results field is not written and
previously persisted partial matches survive in the record). -/
theorem claim_C2_amended :
    (∀ o : AsyncProc.ProcOracle, o.probe = none →
        (AsyncProc.unifiedHandler o).1 =
          [AsyncProc.updateFailedStatus o.failedPutOk] ∧
        (AsyncProc.unifiedHandler o).2 = []) ∧
    (∀ (o : AsyncProc.ProcOracle) (e : Unit), o.probe = some () →
        o.bing = .error e →
        (AsyncProc.unifiedHandler o).1 =
          [.progress 20 (o.progressWriteOk 0),
           AsyncProc.updateFailedStatus o.failedPutOk] ∧
        (AsyncProc.unifiedHandler o).2 = []) ∧
    (∀ o : AsyncProc.ProcOracle, o.finalPutOk = false →
        (AsyncProc.unifiedHandler o).2 = [] ∧
        ((AsyncProc.unifiedHandler o).1).getLast? =
          some (AsyncProc.updateFailedStatus o.failedPutOk)) ∧
    (∀ o : Batch.RunOracle, (Batch.processSearch o).thrown = true →
        (Batch.unifiedHandler o).getLast? =
          some (Batch.failedWrite (o.writeOk (Batch.processSearch o).nextWrite))) ∧
    (∀ o : Batch.RunOracle, ∀ w ∈ Batch.unifiedHandler o, w.status = "failed" →
        w.progress = 0 ∧ w.results = none) := by
  refine ⟨?_, ?_, ?_, ?_, Batch.handler_failed_writes_bare⟩
  · intro o hp
    simp [AsyncProc.unifiedHandler, hp]
  · intro o e hp hb
    simp [AsyncProc.unifiedHandler, hp, hb]
  · intro o hf
    rcases hp : o.probe with _ | u
    · simp [AsyncProc.unifiedHandler, hp]
    rcases hb : o.bing with e | l
    · simp [AsyncProc.unifiedHandler, hp, hb]
    · constructor
      · simp [AsyncProc.unifiedHandler, hp, hb, hf]
      · simp only [AsyncProc.unifiedHandler, hp, hb, hf, Bool.false_eq_true, if_false]
        exact getLast?_cons_cons_append_pair ..
  · intro o hth
    simp only [Batch.unifiedHandler, hth, if_true]
    exact List.getLast?_concat _

/-- Witness for the amended C2 at concrete runs: a probe failure, a Bing
failure, a failing terminal put, and a batched run whose terminal write
fails. -/
theorem claim_C2_witness :
    (procOracleNoProbe.probe = none ∧ procOracleBingFail.probe = some () ∧
      procOracleBingFail.bing = .error () ∧ procOracleNoFinal.finalPutOk = false ∧
      (Batch.processSearch oracleFailWrite1).thrown = true) ∧
    ((AsyncProc.unifiedHandler procOracleNoProbe).1 =
        [AsyncProc.updateFailedStatus procOracleNoProbe.failedPutOk] ∧
      (AsyncProc.unifiedHandler procOracleNoProbe).2 = []) ∧
    ((AsyncProc.unifiedHandler procOracleBingFail).1 =
        [.progress 20 (procOracleBingFail.progressWriteOk 0),
         AsyncProc.updateFailedStatus procOracleBingFail.failedPutOk] ∧
      (AsyncProc.unifiedHandler procOracleBingFail).2 = []) ∧
    ((AsyncProc.unifiedHandler procOracleNoFinal).2 = [] ∧
      ((AsyncProc.unifiedHandler procOracleNoFinal).1).getLast? =
        some (AsyncProc.updateFailedStatus procOracleNoFinal.failedPutOk)) ∧
    (Batch.unifiedHandler oracleFailWrite1).getLast? =
      some (Batch.failedWrite
        (oracleFailWrite1.writeOk (Batch.processSearch oracleFailWrite1).nextWrite)) :=
  ⟨⟨rfl, rfl, rfl, rfl, by decide⟩,
    claim_C2_amended.1 procOracleNoProbe rfl,
    claim_C2_amended.2.1 procOracleBingFail () rfl rfl,
    claim_C2_amended.2.2.1 procOracleNoFinal rfl,
    claim_C2_amended.2.2.2.1 oracleFailWrite1 (by decide)⟩

/-- Claim C3: a run whose provider search succeeds with zero candidates
still reaches terminal status `'completed'` with progress 100 and an
empty match list, in both processor variants. -/
theorem claim_C3_empty_is_completed :
    (∀ o : AsyncProc.ProcOracle, o.probe = some () → o.bing = .ok [] →
        o.finalPutOk = true →
        (AsyncProc.unifiedHandler o).1 =
          [.progress 20 (o.progressWriteOk 0), .progress 40 (o.progressWriteOk 1),
           .putRecord "completed" 100 [] true] ∧
        (AsyncProc.unifiedHandler o).2 = []) ∧
    (∀ o : Batch.RunOracle, o.bing = .ok [] → o.google = .ok [] →
        o.writeOk 0 = true →
        (Batch.processSearch o).thrown = false ∧
        Batch.finalRecord o =
          { status := "completed", progress := 100,
            results := some { bing := [], google := [] },
            counters := some { totalProcessed := 0, totalAvailable := 0,
                               bingMatches := 0, googleMatches := 0 } }) := by
  constructor
  · intro o hp hb hf
    simp [AsyncProc.unifiedHandler, hp, hb, hf, AsyncProc.searchLoop]
  · intro o hb hg hw
    constructor
    · simp [Batch.processSearch, hb, hg, Batch.chunkList, Batch.chunkFuel,
        Batch.runLoop, hw]
    · simp [Batch.finalRecord, Batch.unifiedHandler, Batch.processSearch, hb, hg,
        Batch.chunkList, Batch.chunkFuel, Batch.runLoop, hw, Batch.applyWrite,
        Batch.initialRecord, Batch.pushMatches]

/-- Witness for C3 at concrete runs with empty provider results. -/
theorem claim_C3_witness :
    (procOracleEmpty.probe = some () ∧ procOracleEmpty.bing = .ok [] ∧
      procOracleEmpty.finalPutOk = true ∧ oracleEmpty.bing = .ok [] ∧
      oracleEmpty.google = .ok [] ∧ oracleEmpty.writeOk 0 = true) ∧
    ((AsyncProc.unifiedHandler procOracleEmpty).1 =
        [.progress 20 (procOracleEmpty.progressWriteOk 0),
         .progress 40 (procOracleEmpty.progressWriteOk 1),
         .putRecord "completed" 100 [] true] ∧
      (AsyncProc.unifiedHandler procOracleEmpty).2 = []) ∧
    ((Batch.processSearch oracleEmpty).thrown = false ∧
      Batch.finalRecord oracleEmpty =
        { status := "completed", progress := 100,
          results := some { bing := [], google := [] },
          counters := some { totalProcessed := 0, totalAvailable := 0,
                             bingMatches := 0, googleMatches := 0 } }) :=
  ⟨⟨rfl, rfl, rfl, rfl, rfl, rfl⟩,
    claim_C3_empty_is_completed.1 procOracleEmpty rfl rfl rfl,
    claim_C3_empty_is_completed.2 oracleEmpty rfl rfl rfl⟩

/-- Claim C4 (code bug): the synchronous handler keeps its candidate
list in the module-global `searchResults` variable and only reassigns it
when the Bing response has a non-empty `tags` array.  An invocation
whose response carries `tags: []` therefore processes — and returns
matches for — the previous invocation's candidates: on a fresh container
it processes `[]`, after an invocation that saw one candidate it
processes that candidate and returns its match. -/
theorem claim_C4_global_state_leak :
    Sync.nextSearchResults [] respEmptyTags = [] ∧
    Sync.nextSearchResults (Sync.nextSearchResults [] respA) respEmptyTags =
      [syncCandA] ∧
    Sync.runMatches syncOracleMatch (Sync.nextSearchResults [] respEmptyTags) = [] ∧
    Sync.runMatches syncOracleMatch
      (Sync.nextSearchResults (Sync.nextSearchResults [] respA) respEmptyTags) =
      [syncMatchA] ∧
    ([syncCandA] : List Candidate) ≠ [] ∧ ([syncMatchA] : List MatchRec) ≠ [] := by
  refine ⟨rfl, by decide, rfl, by decide, by decide, by decide⟩

/-- Claim C5: every per-candidate unit of work — `processImage` in the
batched processor and the loop body of the synchronous handler — ends by
attempting the S3 delete of its own `temp-results/(processId).jpg`
artifact on every exit path, and the outcome of that delete can change
neither the unit's returned result (the functions are total, so no error
escalates) nor anything else it did. -/
theorem claim_C5_cleanup_always :
    ∀ (o : Batch.ImageOracle) (so : Sync.CandOracle) (c : Candidate)
      (pid : String) (b b2 : Bool),
      (Batch.processImage o c pid).2.getLast? =
        some (S3Op.delete (tempKey pid) o.deleteOk) ∧
      (Batch.processImage { o with deleteOk := b } c pid).1 =
        (Batch.processImage o c pid).1 ∧
      (Sync.processOne so c pid).2.getLast? =
        some (S3Op.delete (tempKey pid) so.deleteOk) ∧
      (Sync.processOne { so with deleteOk := b2 } c pid).1 =
        (Sync.processOne so c pid).1 :=
  fun o so c pid b b2 =>
    ⟨Batch.processImage_deletes o c pid,
     Batch.processImage_deleteOk_irrelevant o b c pid,
     Sync.processOne_deletes so c pid,
     Sync.processOne_deleteOk_irrelevant so b2 c pid⟩

/-- Claim C6: the batch loop partitions the candidate list into
consecutive chunks of `CONCURRENT_PROCESSING = 50` (every chunk
non-empty and of size at most 50, all but the last exactly 50, and their
concatenation is the original list); when every status write succeeds
the run never throws, each chunk is followed by exactly one
`'processing'` write with the cumulative progress, and the final
aggregate equals the fold of all per-candidate outcomes; a failing
candidate's unit of work returns `none`, which contributes nothing to
the aggregate and cannot abort the chunk or the run. -/
theorem claim_C6_chunked_batching :
    (∀ l : List (Nat × Candidate),
        (Batch.chunkList Batch.CONCURRENT_PROCESSING l).flatten = l ∧
        (∀ b ∈ Batch.chunkList Batch.CONCURRENT_PROCESSING l,
          b ≠ [] ∧ b.length ≤ Batch.CONCURRENT_PROCESSING) ∧
        (∀ b ∈ (Batch.chunkList Batch.CONCURRENT_PROCESSING l).dropLast,
          b.length = Batch.CONCURRENT_PROCESSING)) ∧
    (∀ (o : Batch.RunOracle) (bs gs : List Candidate),
        o.bing = .ok bs → o.google = .ok gs → (∀ i, o.writeOk i = true) →
        (Batch.processSearch o).thrown = false ∧
        (Batch.runLoop o (bs ++ gs).length
            (Batch.chunkList Batch.CONCURRENT_PROCESSING (bs ++ gs).enum)
            { bing := [], google := [] } 0 0).acc =
          Batch.pushMatches { bing := [], google := [] }
            (Batch.batchOutcomes o (bs ++ gs).enum) ∧
        (Batch.runLoop o (bs ++ gs).length
            (Batch.chunkList Batch.CONCURRENT_PROCESSING (bs ++ gs).enum)
            { bing := [], google := [] } 0 0).writes.map
              (fun w => (w.status, w.progress)) =
          (Batch.cumLengths
            (Batch.chunkList Batch.CONCURRENT_PROCESSING (bs ++ gs).enum) 0).map
            (fun q => ("processing", jsRound (100 * q) (bs ++ gs).length))) ∧
    (∀ (oi : Batch.ImageOracle) (c : Candidate) (pid : String),
        oi.fetch = .fetchError → (Batch.processImage oi c pid).1 = none) ∧
    (∀ (m : Batch.Matches) (rest : List (Option MatchRec)),
        Batch.pushMatches m (none :: rest) = Batch.pushMatches m rest) := by
  refine ⟨?_, ?_, ?_, ?_⟩
  · intro l
    exact ⟨Batch.chunkList_join _ (by decide) l,
      Batch.chunkList_sizes _ (by decide) l,
      Batch.chunkList_dropLast _ (by decide) l⟩
  · intro o bs gs hb hg hw
    obtain ⟨ht, ha, hv⟩ := Batch.runLoop_allok o (bs ++ gs).length hw
      (Batch.chunkList Batch.CONCURRENT_PROCESSING (bs ++ gs).enum)
      { bing := [], google := [] } 0 0
    refine ⟨(Batch.processSearch_allok o bs gs hb hg hw).1, ?_, hv⟩
    rw [ha, Batch.chunkList_join _ (by decide)]
  · intro oi c pid hf
    obtain ⟨f, u, cp, db, d⟩ := oi
    simp only at hf
    subst hf
    rfl
  · intro m rest
    rfl

/-- Witness for C6 at the concrete all-healthy one-candidate run. -/
theorem claim_C6_witness :
    (oracleAllOk.bing = .ok [candBing] ∧ oracleAllOk.google = .ok [] ∧
      (∀ i, oracleAllOk.writeOk i = true)) ∧
    ((Batch.processSearch oracleAllOk).thrown = false ∧
      (Batch.runLoop oracleAllOk (([candBing] : List Candidate) ++ []).length
          (Batch.chunkList Batch.CONCURRENT_PROCESSING
            (([candBing] : List Candidate) ++ []).enum)
          { bing := [], google := [] } 0 0).acc =
        Batch.pushMatches { bing := [], google := [] }
          (Batch.batchOutcomes oracleAllOk (([candBing] : List Candidate) ++ []).enum) ∧
      (Batch.runLoop oracleAllOk (([candBing] : List Candidate) ++ []).length
          (Batch.chunkList Batch.CONCURRENT_PROCESSING
            (([candBing] : List Candidate) ++ []).enum)
          { bing := [], google := [] } 0 0).writes.map
            (fun w => (w.status, w.progress)) =
        (Batch.cumLengths
          (Batch.chunkList Batch.CONCURRENT_PROCESSING
            (([candBing] : List Candidate) ++ []).enum) 0).map
          (fun q => ("processing",
            jsRound (100 * q) (([candBing] : List Candidate) ++ []).length))) :=
  ⟨⟨rfl, rfl, fun _ => rfl⟩,
    claim_C6_chunked_batching.2.1 oracleAllOk [candBing] [] rfl rfl (fun _ => rfl)⟩

/-- Claim C7 counterexample: two batched runs that differ only in
whether the durable-store writes succeed.  With a healthy store the run
completes; when the first `updateSearchStatus` call fails, the same
otherwise-successful run is aborted to a terminal `'failed'` record —
the batched variant's status writes are not best-effort. -/
theorem claim_C7_counterexample :
    oracleFailWrite0.bing = oracleAllOk.bing ∧
    oracleFailWrite0.google = oracleAllOk.google ∧
    oracleFailWrite0.image = oracleAllOk.image ∧
    (Batch.processSearch oracleAllOk).thrown = false ∧
    (Batch.finalRecord oracleAllOk).status = "completed" ∧
    (Batch.processSearch oracleFailWrite0).thrown = true ∧
    (Batch.finalRecord oracleFailWrite0).status = "failed" := by
  exact ⟨rfl, rfl, rfl, by decide, by decide, by decide, by decide⟩

/-- Claim C7 amended: store-write failures during processing are
contained in the asynchronous variant — an `updateProgress` failure is
caught and can change neither the returned matches nor the shape of the
trace — and a match-write failure in the batched `processImage` merely
drops that candidate (it returns `none`); but in the batched variant a
failing `updateSearchStatus` progress write throws and aborts the run to
`'failed'`. -/
theorem claim_C7_store_outage :
    (∀ (o : AsyncProc.ProcOracle) (f : Nat → Bool),
        (AsyncProc.unifiedHandler { o with progressWriteOk := f }).2 =
          (AsyncProc.unifiedHandler o).2 ∧
        ((AsyncProc.unifiedHandler { o with progressWriteOk := f }).1).map
            AsyncProc.stripProgressOk =
          ((AsyncProc.unifiedHandler o).1).map AsyncProc.stripProgressOk) ∧
    (∀ (o : Batch.ImageOracle) (c : Candidate) (pid : String),
        o.dbPutOk = false → (Batch.processImage o c pid).1 = none) ∧
    (∀ (o : Batch.RunOracle) (bs gs : List Candidate),
        o.bing = .ok bs → o.google = .ok gs → o.writeOk 0 = false →
        (Batch.processSearch o).thrown = true) :=
  ⟨AsyncProc.handler_progressWriteOk_irrelevant,
   Batch.processImage_dbFail,
   Batch.processSearch_write0_fails⟩

/-- Witness for the amended C7: a dropped match write and an aborting
progress write at concrete runs. -/
theorem claim_C7_witness :
    (imgOracleNoDb.dbPutOk = false ∧ oracleFailWrite0.bing = .ok [candBing] ∧
      oracleFailWrite0.google = .ok [] ∧ oracleFailWrite0.writeOk 0 = false) ∧
    (Batch.processImage imgOracleNoDb candBing "0").1 = none ∧
    (Batch.processSearch oracleFailWrite0).thrown = true :=
  ⟨⟨rfl, rfl, rfl, by decide⟩,
    claim_C7_store_outage.2.1 imgOracleNoDb candBing "0" rfl,
    claim_C7_store_outage.2.2 oracleFailWrite0 [candBing] [] rfl rfl (by decide)⟩

/-- Claim C8: when exactly two text-query results share a `targetUrl`
and carry different search terms, the deduplicated output has exactly
one entry for that url — the first occurrence with the second term
concatenated onto its provenance (first occurrence's term first) — and
the overall output lists targetUrls in insertion order of first
occurrence, each exactly once. -/
theorem claim_C8_dedup_merges_terms (l : List Candidate) (u : String)
    (r1 r2 : Candidate)
    (hocc : l.filter (fun x => x.targetUrl == u) = [r1, r2])
    (_hterms : r1.searchTerm ≠ r2.searchTerm) :
    (Batch.dedupByTargetUrl l).filter (fun x => x.targetUrl == u) =
      [{ r1 with searchTerm := r1.searchTerm ++ ", " ++ r2.searchTerm }] ∧
    (Batch.dedupByTargetUrl l).map Candidate.targetUrl =
      Batch.firstOccurrenceUrls [] l ∧
    ((Batch.dedupByTargetUrl l).map Candidate.targetUrl).Nodup := by
  refine ⟨?_, Batch.dedup_urls l, Batch.dedup_urls_nodup l⟩
  rw [Batch.dedupByTargetUrl, Batch.filter_foldl_not_mem u l [] (by simp) (by simp),
    hocc]
  rfl

/-- Witness for C8 at a concrete pair of Google results sharing the
targetUrl `u` with terms `alice` and `alice bob`. -/
theorem claim_C8_witness :
    (([gR1, gR2] : List Candidate).filter (fun x => x.targetUrl == "u") =
        [gR1, gR2] ∧ gR1.searchTerm ≠ gR2.searchTerm) ∧
    ((Batch.dedupByTargetUrl [gR1, gR2]).filter (fun x => x.targetUrl == "u") =
        [{ gR1 with searchTerm := gR1.searchTerm ++ ", " ++ gR2.searchTerm }] ∧
      (Batch.dedupByTargetUrl [gR1, gR2]).map Candidate.targetUrl =
        Batch.firstOccurrenceUrls [] [gR1, gR2] ∧
      ((Batch.dedupByTargetUrl [gR1, gR2]).map Candidate.targetUrl).Nodup) :=
  ⟨⟨by decide, by decide⟩,
    claim_C8_dedup_merges_terms [gR1, gR2] "u" gR1 gR2 (by decide) (by decide)⟩

/-- Claim C9 counterexample: the list handed to the batching loop is the
plain concatenation of the Bing and Google results, and the Bing side is
never deduplicated: a Bing response whose action lists two items with
the same `contentUrl` yields a combined candidate list with a repeated
`targetUrl`. -/
theorem claim_C9_counterexample :
    ¬ (((Batch.performBingSearch respDup ++
          Batch.performGoogleSearch googleFetchFail "n" "l" "e").map
            Candidate.targetUrl).Nodup) := by
  decide

/-- Claim C9 amended: uniqueness by `targetUrl` holds for the Google
sublist (the deduplicator runs only inside `performGoogleSearch`); the
combined Bing ++ Google list may repeat a targetUrl. -/
theorem claim_C9_google_unique :
    ∀ (fetch : String → Except Unit (List Batch.GoogleItem))
      (fullName location employer : String),
      ((Batch.performGoogleSearch fetch fullName location employer).map
        Candidate.targetUrl).Nodup :=
  fun _ _ _ _ => Batch.dedup_urls_nodup _

/-- Claim C10: the synchronous handler truncates the flattened Bing
candidates with `slice(0, MAX_PARALLEL_PROCESSING)` where
`MAX_PARALLEL_PROCESSING = 5`, the module-global candidate list never
exceeds 5 entries over any sequence of invocations starting from a fresh
container, and the returned match list of an invocation is never longer
than the candidate list, hence at most 5; the unused
`MAX_SEARCH_RESULTS = 10` bound is never what limits the list. -/
theorem claim_C10_five_candidate_bound :
    Sync.MAX_PARALLEL_PROCESSING = 5 ∧ Sync.MAX_SEARCH_RESULTS = 10 ∧
    (∀ (g : List Candidate) (tags : List Sync.SyncTag), 0 < tags.length →
        Sync.nextSearchResults g { tags := some tags } =
          (Sync.flattenResults tags).take Sync.MAX_PARALLEL_PROCESSING) ∧
    (∀ resps : List Sync.SyncResponse,
        (resps.foldl Sync.nextSearchResults []).length ≤
          Sync.MAX_PARALLEL_PROCESSING) ∧
    (∀ (resps : List Sync.SyncResponse) (oracle : Nat → Sync.CandOracle),
        (Sync.runMatches oracle (resps.foldl Sync.nextSearchResults [])).length ≤
          Sync.MAX_PARALLEL_PROCESSING) := by
  refine ⟨rfl, rfl, ?_, ?_, ?_⟩
  · intro g tags ht
    simp [Sync.nextSearchResults, ht]
  · intro resps
    exact Sync.foldl_nextSearchResults_le resps [] (by decide)
  · intro resps oracle
    exact le_trans (Sync.runMatches_le oracle _)
      (Sync.foldl_nextSearchResults_le resps [] (by decide))

/-- Witness for C10 at the concrete one-candidate response. -/
theorem claim_C10_witness :
    (0 < ([{ actions := [{ value := some [itemA] }] }] : List Sync.SyncTag).length) ∧
    Sync.nextSearchResults []
        { tags := some [{ actions := [{ value := some [itemA] }] }] } =
      (Sync.flattenResults [{ actions := [{ value := some [itemA] }] }]).take
        Sync.MAX_PARALLEL_PROCESSING :=
  ⟨by decide,
    claim_C10_five_candidate_bound.2.2.1 []
      [{ actions := [{ value := some [itemA] }] }] (by decide)⟩
